import Mathlib

/-!
Verification of the bibliographic-entry extraction and rendering module
(`initial.py`) of the `hazel` repository.

An entry is modelled as the list of its text lines, each line carrying its
trailing newline, exactly as Python's file iteration yields them.  The
source functions share one file object whose read cursor is rewound with
`file.seek(0)`; the embedding makes that cursor explicit as a natural
number index into the line list.  Every getter takes the full line list
together with the cursor position and returns, besides its value, the
cursor position it leaves behind (`0` after a `seek(0)`, `lines.length`
when the iteration exhausted the file without seeking back).

Fallible paths of the Python code (`IndexError` from `split('{')[1]`,
`ValueError` from unpacking `clean_name.split(', ')`, `TypeError` from
iterating `None`) are modelled with `Except String`.
-/

namespace Hazel

/-- Python's `pat in line`: contiguous substring containment. -/
def containsStr (line pat : String) : Bool :=
  decide (pat.data <:+: line.data)

/-- Index of the first occurrence of `sep` in a character list; worker for
the embedding of Python's `str.split`. -/
def firstMatch (sep : List Char) : List Char → Option Nat
  | [] => none
  | c :: cs =>
    if sep.isPrefixOf (c :: cs) then some 0
    else (firstMatch sep cs).map (· + 1)

/-- Fuel-driven worker for Python's `str.split`: cut at the first
occurrence of `sep` and continue after it.  The fuel — any bound on the
number of cuts, in practice the length of the list — makes the recursion
structural, so concrete instances evaluate inside the kernel. -/
def splitFuel (sep : List Char) : Nat → List Char → List (List Char)
  | 0, l => [l]
  | fuel + 1, l =>
    match firstMatch sep l with
    | none => [l]
    | some i => l.take i :: splitFuel sep fuel (l.drop (i + sep.length))

/-- Python's `s.split(sep)` for a non-empty separator: split at every
non-overlapping occurrence, left to right, keeping empty pieces. -/
def splitStr (s sep : String) : List String :=
  (splitFuel sep.data s.data.length s.data).map String.mk

/-- Python's `sep.join(xs)` at the character-list level. -/
def joinSep (sep : List Char) : List (List Char) → List Char
  | [] => []
  | [a] => a
  | a :: b :: bs => a ++ sep ++ joinSep sep (b :: bs)

/-- Python's `sep.join(xs)`. -/
def pyJoin (sep : String) (xs : List String) : String :=
  String.mk (joinSep sep.data (xs.map String.data))

/-- Python's `str.lower`, over the ASCII range the source data uses. -/
def pyLower (s : String) : String :=
  String.mk (s.data.map Char.toLower)

/-- Python's `str.strip()`: remove leading and trailing whitespace. -/
def pyTrim (s : String) : String :=
  String.mk (((s.data.dropWhile Char.isWhitespace).reverse.dropWhile
    Char.isWhitespace).reverse)

/-- Python's `s.replace(c, '')` for a one-character pattern: remove every
occurrence of the character. -/
def pyRemoveAll (c : Char) (s : String) : String :=
  String.mk (s.data.filter fun d => !(d == c))

/-- Python's `line.split('{')[1].split('}')[0]`, the brace-delimited value
of a field line; raises `IndexError` when the line holds no brace. -/
def bracedValue (line : String) : Except String String :=
  match (splitStr line "\x7b")[1]? with
  | none => Except.error "IndexError: list index out of range"
  | some s => Except.ok ((splitStr s "\x7d").headD "")

/-- Python's `line.split('= ')[1].split(',\n')[0]` with both braces then
removed (`get_title`, lines 59-60).  The caller only evaluates this on a
line containing `"title = "`, where index 1 of the split exists. -/
def titleValue (line : String) : String :=
  pyRemoveAll '\x7d' (pyRemoveAll '\x7b'
    ((splitStr ((splitStr line "= ").getD 1 "") ",\n").headD ""))

/-- `get_title` (lines 43-62): return at the first line containing
`"title = "`, seeking back to 0; on a miss the loop exhausts the file and
the function falls through without a seek, leaving the cursor at the end. -/
def get_title (lines : List String) (pos : Nat) : Option String × Nat :=
  match (lines.drop pos).find? (fun l => containsStr l "title = ") with
  | some l => (some (titleValue l), 0)
  | none => (none, lines.length)

/-- `get_year` (lines 66-84): first line containing `"year = "`, value
between braces; no seek on the fall-through path. -/
def get_year (lines : List String) (pos : Nat) :
    Except String (Option String × Nat) :=
  match (lines.drop pos).find? (fun l => containsStr l "year = ") with
  | some l => do
    let v ← bracedValue l
    return (some v, 0)
  | none => Except.ok (none, lines.length)

/-- `get_url` (lines 188-207): first line containing `"url = "`, value
between braces; the explicit `return None` path performs no seek. -/
def get_url (lines : List String) (pos : Nat) :
    Except String (Option String × Nat) :=
  match (lines.drop pos).find? (fun l => containsStr l "url = ") with
  | some l => do
    let v ← bracedValue l
    return (some v, 0)
  | none => Except.ok (none, lines.length)

/-- `get_filename` (lines 88-104): keep the alphanumeric characters of the
title and append `.md`. -/
def get_filename (title : String) : String :=
  String.mk (title.data.filter Char.isAlphanum) ++ ".md"

/-- Python's `re.sub(r'[^\w\s ,]', '', name)` in `get_authors` (line 35):
keep word characters (alphanumeric or underscore), whitespace and commas. -/
def cleanName (name : String) : String :=
  String.mk (name.data.filter fun c =>
    c.isAlphanum || c == '_' || c.isWhitespace || c == ',')

/-- One author token (lines 35-37): clean it, unpack
`last, first = clean_name.split(', ')` — a `ValueError` unless the split
has exactly two parts — and render `f'{first} {last}'`. -/
def parseName (name : String) : Except String String :=
  match splitStr (cleanName name) ", " with
  | [last, first] => Except.ok (first ++ " " ++ last)
  | _ => Except.error "ValueError: not exactly two comma-separated parts"

/-- The body run on one author line (lines 31-37): split the braced value
on `' and '` and process the tokens in order. -/
def parseAuthors (v : String) : Except String (List String) :=
  (splitStr v " and ").mapM parseName

/-- Loop of `get_authors` (lines 29-37): every line containing
`"author = "` rebuilds the list from scratch, so the last such line wins. -/
def get_authors_go : List String → List String → Except String (List String)
  | [], acc => Except.ok acc
  | l :: ls, acc =>
    if containsStr l "author = " then do
      let v ← bracedValue l
      let a ← parseAuthors v
      get_authors_go ls a
    else get_authors_go ls acc

/-- `get_authors` (lines 14-39); the unconditional `file.seek(0)` leaves
the cursor at 0. -/
def get_authors (lines : List String) (pos : Nat) :
    Except String (List String × Nat) := do
  let a ← get_authors_go (lines.drop pos) []
  return (a, 0)

/-- Kebab-casing of a topic tag (line 148):
`'-'.join(tag.lower().split(' '))`. -/
def kebab (tag : String) : String :=
  pyJoin "-" (splitStr (pyLower tag) " ")

/-- The if/elif classification chain of `get_tags` (lines 130-149) run on
one tag, threading the status/topic accumulators. -/
def classifyTag (acc : List String × List String) (tag : String) :
    List String × List String :=
  if tag == "To Read - Low Priority" then (acc.1 ++ ["low-priority"], acc.2)
  else if tag == "To Read - Mid Priority" then (acc.1 ++ ["mid-priority"], acc.2)
  else if tag == "To Read - High Priority" then (acc.1 ++ ["high-priority"], acc.2)
  else if tag == "1st Pass" then (acc.1 ++ ["first-pass"], acc.2)
  else if tag == "2nd Pass" then (acc.1 ++ ["second-pass"], acc.2)
  else if tag == "3rd Pass" then (acc.1 ++ ["third-pass"], acc.2)
  else if tag == "Important" then (acc.1 ++ ["important"], acc.2)
  else if tag == "Archived" then acc
  else (acc.1, acc.2 ++ [kebab tag])

/-- Loop of `get_tags` (lines 125-149): every line containing
`"keywords = "` contributes its comma-and-space-separated tags in order. -/
def get_tags_go : List String → List String × List String →
    Except String (List String × List String)
  | [], acc => Except.ok acc
  | l :: ls, acc =>
    if containsStr l "keywords = " then do
      let v ← bracedValue l
      get_tags_go ls ((splitStr v ", ").foldl classifyTag acc)
    else get_tags_go ls acc

/-- `get_tags` (lines 108-153): classify, default the status list to
`['not-read']` when empty, seek back to 0. -/
def get_tags (lines : List String) (pos : Nat) :
    Except String ((List String × List String) × Nat) := do
  let (st, tt) ← get_tags_go (lines.drop pos) ([], [])
  let st := if st.length == 0 then st ++ ["not-read"] else st
  return ((st, tt), 0)

/-- Loop of `get_notes` (lines 173-182): the flag records whether an
`"annote = "` line has been seen; note the `annote` test runs first on
every line, so such a line is always discarded, even while capturing. -/
def get_notes_go : List String → Bool → List String → List String
  | [], _, notes => notes
  | l :: ls, flag, notes =>
    if containsStr l "annote = " then get_notes_go ls true notes
    else if flag then
      if containsStr l "\x7d," then notes
      else get_notes_go ls true (notes ++ [pyTrim l])
    else get_notes_go ls false notes

/-- `get_notes` (lines 157-184); the `file.seek(0)` after the loop (also
reached after `break`) leaves the cursor at 0. -/
def get_notes (lines : List String) (pos : Nat) : List String × Nat :=
  (get_notes_go (lines.drop pos) false [], 0)

/-- The dictionary assembled by `extract_data` (lines 233-242). -/
structure Record where
  title : String
  authors : List String
  filename : String
  status_tags : List String
  topic_tags : List String
  imported_notes : List String
  url : Option String
  year : Option String

/-- `extract_data` (lines 211-242): run the getters in source order over the
shared cursor.  `get_filename(title)` iterates the title, so a `None` title
(missing field) raises a `TypeError` there; the error occurs after
`get_authors` has already run, matching the Python statement order. -/
def extract_data (lines : List String) : Except String Record := do
  let (titleOpt, p1) := get_title lines 0
  let (authors, p2) ← get_authors lines p1
  match titleOpt with
  | none => Except.error "TypeError: argument of type NoneType is not iterable"
  | some title => do
    let filename := get_filename title
    let ((status_tags, topic_tags), p3) ← get_tags lines p2
    let (imported_notes, p4) := get_notes lines p3
    let (url, p5) ← get_url lines p4
    let (year, _p6) ← get_year lines p5
    Except.ok ⟨title, authors, filename, status_tags, topic_tags,
      imported_notes, url, year⟩

/-- Python f-string interpolation of a value that may be `None`. -/
def pyStr : Option String → String
  | some s => s
  | none => "None"

/-- Heading write of `create_markdown` (line 272): `f'# {title} ({year})\n\n'`. -/
def h1Line (r : Record) : String :=
  "# " ++ r.title ++ " (" ++ pyStr r.year ++ ")\n\n"

/-- Link write (lines 274-277): the link line, or the fixed placeholder when
the url is `None`. -/
def linkLine (r : Record) : String :=
  match r.url with
  | some u => "[Link to Online Version](" ++ u ++ ")\n\n"
  | none => "(Link not found)\n\n"

/-- One `f'#{tag}\n'` write per tag (lines 280-285). -/
def hashtagLines (tags : List String) : String :=
  String.join (tags.map fun t => "#" ++ t ++ "\n")

/-- Tags section (lines 279-287): heading, status hashtags, a blank line when
any were written, topic hashtags, a blank line when any were written. -/
def tagsSection (r : Record) : String :=
  "## Tags\n\n" ++ hashtagLines r.status_tags
    ++ (if r.status_tags.length > 0 then "\n" else "")
    ++ hashtagLines r.topic_tags
    ++ (if r.topic_tags.length > 0 then "\n" else "")

/-- One author bullet (lines 290-293): the name with its spaces replaced by
underscores via `'_'.join(author.split(' '))`, wrapped in a wiki link. -/
def authorBullet (a : String) : String :=
  "- [[PPL_" ++ pyJoin "_" (splitStr a " ") ++ "|" ++ a ++ "]]\n"

/-- Authors section (lines 289-294). -/
def authorsSection (r : Record) : String :=
  "## Authors\n\n" ++ String.join (r.authors.map authorBullet) ++ "\n"

/-- Fixed placeholder sections (lines 296-301). -/
def placeholderSections : String :=
  "## Summary\n\n(Summary here)\n\n## Key Takeaways\n\n- Key takeaways here\n\n"
    ++ "## Relevance (or lack thereof)\n\n(Relevance here)\n\n"

/-- Imported-notes section (lines 303-307), emitted only when non-empty. -/
def notesSection (r : Record) : String :=
  if r.imported_notes.length > 0 then
    "## Imported Notes\n\n"
      ++ String.join (r.imported_notes.map fun n => "- " ++ n ++ "\n") ++ "\n"
  else ""

/-- Footer writes (lines 308-309). -/
def footer : String :=
  "---------------\n*Made with Hazel*\n"

/-- `create_markdown` (lines 246-309) as the text written to the output
file, the writes concatenated in source order. -/
def create_markdown (r : Record) : String :=
  h1Line r ++ linkLine r ++ tagsSection r ++ authorsSection r
    ++ placeholderSections ++ notesSection r ++ footer

/-!
Specification-side definitions, transcribed from the wording of the spec
and of the claims, to be compared with the definitions above that were
transcribed from the source.
-/

/-- The fixed classification table of spec section 4.3, source tag to
normalized status tag; `"Archived"` is handled separately (dropped). -/
def claimStatusTable : List (String × String) :=
  [("To Read - Low Priority", "low-priority"),
   ("To Read - Mid Priority", "mid-priority"),
   ("To Read - High Priority", "high-priority"),
   ("1st Pass", "first-pass"),
   ("2nd Pass", "second-pass"),
   ("3rd Pass", "third-pass"),
   ("Important", "important")]

/-- Exact-match lookup in the table. -/
def claimStatusOf (t : String) : Option String :=
  claimStatusTable.lookup t

/-- Spec wording for a topic tag: lower-case it and replace every space
with a hyphen. -/
def claimKebab (t : String) : String :=
  String.mk ((pyLower t).data.map fun c => if c == ' ' then '-' else c)

/-- Spec wording of the classifier on a tag list: status tags are the table
hits in input order; every tag that is neither a table hit nor `"Archived"`
becomes a topic tag, normalized, in input order; when no status tag was
produced the status list is exactly `["not-read"]`. -/
def claimClassify (tags : List String) : List String × List String :=
  let st := tags.filterMap claimStatusOf
  let tt := (tags.filter fun t =>
    (claimStatusOf t).isNone && t != "Archived").map claimKebab
  ((if st.isEmpty then ["not-read"] else st), tt)

/-- The tag pipeline run on one keywords field value: split on `", "`,
classify, apply the default — what `get_tags` computes for an entry whose
single keywords line carries the value `v`. -/
def valueTags (v : String) : List String × List String :=
  let (st, tt) := (splitStr v ", ").foldl classifyTag ([], [])
  ((if st.length == 0 then st ++ ["not-read"] else st), tt)

/-- Claim wording of the author cleaning step: strip every character that
is not alphanumeric, whitespace, or comma.  (The source's `[^\w\s ,]`
additionally keeps underscores.) -/
def claimClean (name : String) : String :=
  String.mk (name.data.filter fun c =>
    c.isAlphanum || c.isWhitespace || c == ',')

/-- The rendering the claim predicts for one author token, using
`claimClean`. -/
def claimRenderName (name : String) : String :=
  match splitStr (claimClean name) ", " with
  | [last, first] => first ++ " " ++ last
  | _ => ""

/-- Total rendering of one well-formed author token as the source cleans
it; agrees with `parseName` whenever that succeeds. -/
def renderName (name : String) : String :=
  match splitStr (cleanName name) ", " with
  | [last, first] => first ++ " " ++ last
  | _ => ""

/-- The two states of the notes extractor of spec section 4.4. -/
inductive NoteState
  | searching
  | capturing

/-- The machine exactly as the claim words it: while capturing, every line
is appended trimmed unless it contains `"},"`, which terminates. -/
def claimNotesCapturing : List String → List String
  | [] => []
  | l :: ls =>
    if containsStr l "\x7d," then []
    else pyTrim l :: claimNotesCapturing ls

/-- Searching state of the claim's machine: discard lines until one
contains `"annote = "`, then capture. -/
def claimNotes : List String → List String
  | [] => []
  | l :: ls =>
    if containsStr l "annote = " then claimNotesCapturing ls
    else claimNotes ls

/-- The amended machine: as the claim's, except that a line containing
`"annote = "` is discarded in the capturing state as well, because the
source tests for the opening marker first on every line. -/
def amendedNotesGo : NoteState → List String → List String
  | _, [] => []
  | NoteState.searching, l :: ls =>
    if containsStr l "annote = " then amendedNotesGo NoteState.capturing ls
    else amendedNotesGo NoteState.searching ls
  | NoteState.capturing, l :: ls =>
    if containsStr l "annote = " then amendedNotesGo NoteState.capturing ls
    else if containsStr l "\x7d," then []
    else pyTrim l :: amendedNotesGo NoteState.capturing ls

/-- The amended machine started in the searching state. -/
def amendedNotes (lines : List String) : List String :=
  amendedNotesGo NoteState.searching lines

/-- Claim wording of an author wiki-link bullet: the display name with its
spaces replaced by underscores as the link target. -/
def specWikiLink (a : String) : String :=
  "- [[PPL_" ++ String.mk (a.data.map fun c => if c == ' ' then '_' else c)
    ++ "|" ++ a ++ "]]\n"

/-- The note layout exactly as the claim words it: H1 title and year, link
line or placeholder, tags (hashtag per line, status before topic, each
non-empty group followed by a blank line), author bullets, the three fixed
placeholder sections, the imported-notes section only when notes are
non-empty, and the fixed horizontal-rule-plus-signature footer. -/
def specRender (r : Record) : String :=
  "# " ++ r.title ++ " (" ++ pyStr r.year ++ ")\n\n"
    ++ (match r.url with
        | some u => "[Link to Online Version](" ++ u ++ ")\n\n"
        | none => "(Link not found)\n\n")
    ++ "## Tags\n\n"
    ++ String.join (r.status_tags.map fun t => "#" ++ t ++ "\n")
    ++ (if r.status_tags.isEmpty then "" else "\n")
    ++ String.join (r.topic_tags.map fun t => "#" ++ t ++ "\n")
    ++ (if r.topic_tags.isEmpty then "" else "\n")
    ++ "## Authors\n\n"
    ++ String.join (r.authors.map specWikiLink) ++ "\n"
    ++ "## Summary\n\n(Summary here)\n\n"
    ++ "## Key Takeaways\n\n- Key takeaways here\n\n"
    ++ "## Relevance (or lack thereof)\n\n(Relevance here)\n\n"
    ++ (if r.imported_notes.isEmpty then ""
        else "## Imported Notes\n\n"
          ++ String.join (r.imported_notes.map fun n => "- " ++ n ++ "\n")
          ++ "\n")
    ++ "---------------\n*Made with Hazel*\n"

/-!
Bridge lemmas: joining the pieces of a single-character split with a
single-character separator is the same as mapping a character replacement
over the string.
-/

theorem data_append (a b : String) : (a ++ b).data = a.data ++ b.data := rfl

theorem data_mk (l : List Char) : (String.mk l).data = l := rfl

theorem isPrefixOf_singleton (c b : Char) (bs : List Char) :
    [c].isPrefixOf (b :: bs) = (c == b) := by
  simp [List.isPrefixOf]

theorem firstMatch_singleton_none {c : Char} :
    ∀ {l : List Char}, firstMatch [c] l = none → ∀ a ∈ l, a ≠ c := by
  intro l
  induction l with
  | nil => intro _ a ha; cases ha
  | cons b bs ih =>
    intro h a ha
    rw [firstMatch, isPrefixOf_singleton] at h
    by_cases hb : c = b
    · rw [if_pos (by simp [hb])] at h; cases h
    · rw [if_neg (by simp [hb])] at h
      rcases List.mem_cons.mp ha with rfl | hmem
      · exact fun hEq => hb hEq.symm
      · exact ih (by
          cases hfm : firstMatch [c] bs with
          | none => rfl
          | some j => rw [hfm] at h; cases h) a hmem

theorem firstMatch_singleton_some {c : Char} :
    ∀ {l : List Char} {i : Nat}, firstMatch [c] l = some i →
      (∀ a ∈ l.take i, a ≠ c) ∧ l = l.take i ++ c :: l.drop (i + 1) := by
  intro l
  induction l with
  | nil => intro i h; cases h
  | cons b bs ih =>
    intro i h
    rw [firstMatch, isPrefixOf_singleton] at h
    by_cases hb : c = b
    · rw [if_pos (by simp [hb])] at h
      cases h
      subst hb
      constructor
      · intro a ha
        simp at ha
      · simp
    · rw [if_neg (by simp [hb])] at h
      cases hfm : firstMatch [c] bs with
      | none => rw [hfm] at h; cases h
      | some j =>
        rw [hfm] at h
        cases h
        obtain ⟨h1, h2⟩ := ih hfm
        constructor
        · intro a ha
          rcases List.mem_cons.mp (by simpa using ha) with rfl | hmem
          · exact fun hEq => hb hEq.symm
          · exact h1 a hmem
        · simpa using congrArg (b :: ·) h2

theorem splitFuel_ne_nil (sep : List Char) (fuel : Nat) (l : List Char) :
    splitFuel sep fuel l ≠ [] := by
  cases fuel with
  | zero => simp [splitFuel]
  | succ n =>
    rw [splitFuel]
    cases firstMatch sep l <;> simp

theorem joinSep_splitFuel_singleton (c rep : Char) :
    ∀ (fuel : Nat) (l : List Char), l.length ≤ fuel →
      joinSep [rep] (splitFuel [c] fuel l)
        = l.map fun a => if a == c then rep else a := by
  intro fuel
  induction fuel with
  | zero =>
    intro l hl
    have : l = [] := List.length_eq_zero.mp (Nat.le_zero.mp hl)
    subst this
    rfl
  | succ n ih =>
    intro l hl
    rw [splitFuel]
    cases hfm : firstMatch [c] l with
    | none =>
      have hno := firstMatch_singleton_none hfm
      rw [show joinSep [rep] [l] = l from rfl]
      symm
      apply List.map_congr_left ?_ |>.trans (List.map_id l)
      intro a ha
      simp [hno a ha]
    | some i =>
      obtain ⟨hfree, hdec⟩ := firstMatch_singleton_some hfm
      have hlen : (l.drop (i + 1)).length ≤ n := by
        have := List.length_drop (i + 1) l
        omega
      have ihd := ih (l.drop (i + 1)) hlen
      obtain ⟨b, bs, hbs⟩ : ∃ b bs, splitFuel [c] n (l.drop (i + 1)) = b :: bs := by
        cases hsf : splitFuel [c] n (l.drop (i + 1)) with
        | nil => exact absurd hsf (splitFuel_ne_nil [c] n (l.drop (i + 1)))
        | cons b bs => exact ⟨b, bs, rfl⟩
      have htake : (l.take i).map (fun a => if a == c then rep else a) = l.take i := by
        apply (List.map_congr_left ?_).trans (List.map_id (l.take i))
        intro a ha
        simp [hfree a ha]
      calc joinSep [rep] (l.take i :: splitFuel [c] (n + 1 - 1) (l.drop (i + [c].length)))
          = joinSep [rep] (l.take i :: b :: bs) := by
            rw [show (i + [c].length) = i + 1 from rfl, show n + 1 - 1 = n from rfl, hbs]
        _ = l.take i ++ [rep] ++ joinSep [rep] (b :: bs) := rfl
        _ = l.take i ++ [rep] ++ (l.drop (i + 1)).map fun a => if a == c then rep else a := by
            rw [← hbs, ihd]
        _ = l.map fun a => if a == c then rep else a := by
            conv_rhs => rw [hdec]
            rw [List.map_append, List.map_cons, htake]
            simp [List.append_assoc]

theorem pyJoin_splitStr_singleton (c rep : Char) (s : String) :
    pyJoin (String.mk [rep]) (splitStr s (String.mk [c]))
      = String.mk (s.data.map fun a => if a == c then rep else a) := by
  unfold pyJoin splitStr
  rw [data_mk, data_mk]
  rw [List.map_map]
  rw [show (String.data ∘ String.mk) = id from rfl, List.map_id]
  exact congrArg String.mk
    (joinSep_splitFuel_singleton c rep s.data.length s.data le_rfl)

theorem kebab_eq_claimKebab (t : String) : kebab t = claimKebab t :=
  pyJoin_splitStr_singleton ' ' '-' (pyLower t)

theorem authorBullet_eq_specWikiLink (a : String) :
    authorBullet a = specWikiLink a := by
  unfold authorBullet specWikiLink
  rw [show pyJoin "_" (splitStr a " ")
      = String.mk (a.data.map fun d => if d == ' ' then '_' else d) from
    pyJoin_splitStr_singleton ' ' '_' a]


theorem find?_none_of_all {p : String → Bool} {ls : List String}
    (h : ∀ l ∈ ls, p l = false) : ls.find? p = none :=
  List.find?_eq_none.mpr fun l hl => by simp [h l hl]

/-- C4: field lookups over the shared rewindable cursor are not
cross-contamination free: after a failed scan for the title the cursor is
left at the end of the entry, so a following scan for the year misses a
year line that a scan from the start finds. -/
theorem title_miss_contaminates_year_scan :
    get_title ["year = \x7b2020\x7d,\n"] 0 = (none, 1)
    ∧ get_year ["year = \x7b2020\x7d,\n"] 1 = Except.ok (none, 1)
    ∧ get_year ["year = \x7b2020\x7d,\n"] 0 = Except.ok (some "2020", 0)
    ∧ (Except.ok (none, 1) : Except String (Option String × Nat))
        ≠ Except.ok (some "2020", 0) :=
  ⟨rfl, rfl, rfl, by simp⟩

/-- C5, counterexample: the filename derivation maps the claimed example
correctly but is not idempotent — on its own output it folds the extension
characters into the stem. -/
theorem filename_idempotence_counterexample :
    get_filename "A Study: Part 2!" = "AStudyPart2.md"
    ∧ get_filename (get_filename "A Study: Part 2!") = "AStudyPart2md.md"
    ∧ get_filename (get_filename "A Study: Part 2!")
        ≠ get_filename "A Study: Part 2!" :=
  ⟨rfl, rfl, by decide⟩

/-- C5, amended: `get_filename` keeps exactly the alphanumeric characters
of the title and appends `.md`; reapplying it appends a spurious `md` to
the stem, so the derivation is never idempotent. -/
theorem get_filename_amended (t : String) :
    get_filename t = String.mk (t.data.filter Char.isAlphanum) ++ ".md"
    ∧ get_filename (get_filename t)
        = String.mk (t.data.filter Char.isAlphanum) ++ "md.md"
    ∧ get_filename (get_filename t) ≠ get_filename t := by
  refine ⟨rfl, ?_, ?_⟩
  · apply String.ext
    simp [get_filename, data_append, data_mk, List.filter_append,
      List.filter_filter]
  · intro h
    have h2 := congrArg String.data h
    simp [get_filename, data_append, data_mk, List.filter_append,
      List.filter_filter] at h2

/-- C10: substring matching makes `"booktitle = "` lines match the
`"title = "` scan, so a booktitle line ahead of the title line supplies
the extracted title — and hence the derived filename. -/
theorem booktitle_shadows_title (l : String)
    (h : containsStr l "booktitle = " = true) :
    containsStr l "title = " = true
    ∧ (∀ rest : List String, get_title (l :: rest) 0 = (some (titleValue l), 0))
    ∧ get_title ["booktitle = \x7bProc of X\x7d,\n", "title = \x7bReal Title\x7d,\n"] 0
        = (some "Proc of X", 0)
    ∧ get_filename "Proc of X" = "ProcofX.md" := by
  have hb : ("booktitle = ").data <:+: l.data := of_decide_eq_true h
  have ht : ("title = ").data <:+: l.data :=
    List.IsInfix.trans (by decide) hb
  refine ⟨decide_eq_true ht, ?_, rfl, rfl⟩
  intro rest
  have hfind : (l :: rest).find? (fun s => containsStr s "title = ") = some l :=
    List.find?_cons_of_pos rest (by exact decide_eq_true ht)
  rw [get_title, show (l :: rest).drop 0 = l :: rest from rfl, hfind]

/-- C10, witness. -/
theorem booktitle_shadows_title_witness :
    containsStr "booktitle = \x7bProc of X\x7d,\n" "title = " = true
    ∧ get_title ["booktitle = \x7bProc of X\x7d,\n"] 0 = (some "Proc of X", 0) := by
  have h := booktitle_shadows_title "booktitle = \x7bProc of X\x7d,\n" (by decide)
  exact ⟨h.1, (h.2.1 []).trans (by rfl)⟩

/-- C8: when no line of the entry matches the url key the lookup returns
the absent sentinel without raising, and the renderer emits the fixed
placeholder line in place of the link line. -/
theorem missing_url_placeholder (lines : List String) (r : Record)
    (h : ∀ l ∈ lines, containsStr l "url = " = false)
    (hr : r.url = none) :
    get_url lines 0 = Except.ok (none, lines.length)
    ∧ linkLine r = "(Link not found)\n\n"
    ∧ create_markdown r
        = h1Line r ++ "(Link not found)\n\n" ++ tagsSection r
          ++ authorsSection r ++ placeholderSections ++ notesSection r
          ++ footer := by
  refine ⟨?_, ?_, ?_⟩
  · rw [get_url, show lines.drop 0 = lines from rfl, find?_none_of_all h]
  · rw [linkLine, hr]
  · rw [create_markdown, linkLine, hr]

/-- C8, witness. -/
theorem missing_url_placeholder_witness :
    get_url ["journal = \x7bNature\x7d,\n"] 0 = Except.ok (none, 1)
    ∧ linkLine ⟨"T", ["Jane Doe"], "T.md", ["not-read"], [], [], none,
        some "2020"⟩ = "(Link not found)\n\n" := by
  have h := missing_url_placeholder ["journal = \x7bNature\x7d,\n"]
    ⟨"T", ["Jane Doe"], "T.md", ["not-read"], [], [], none, some "2020"⟩
    (by decide) rfl
  exact ⟨h.1, h.2.1⟩

/-- C2, counterexample: the source's cleaning keeps underscores (they are
word characters for `\w`), so on a name containing an underscore the
output differs from the claim's "strip everything but alphanumerics,
whitespace and commas". -/
theorem author_underscore_counterexample :
    get_authors ["author = \x7bDo_e, Jane\x7d,\n"] 0
      = Except.ok (["Jane Do_e"], 0)
    ∧ claimRenderName "Do_e, Jane" = "Jane Doe"
    ∧ ("Jane Do_e" : String) ≠ "Jane Doe" :=
  ⟨rfl, rfl, by decide⟩

/-- C3, counterexample: while capturing, a line containing `"annote = "`
is tested against the opening marker first and discarded, so the code
drops a note line the claim's machine would keep. -/
theorem notes_annote_in_capture_counterexample :
    get_notes ["annote = \x7b\n", "note annote = here\n", "\x7d,\n"] 0
      = ([], 0)
    ∧ claimNotes ["annote = \x7b\n", "note annote = here\n", "\x7d,\n"]
        = ["note annote = here"]
    ∧ ([] : List String) ≠ ["note annote = here"] :=
  ⟨rfl, rfl, by decide⟩

/-- C6, counterexample: an entry with no title field does not produce a
record with an empty rendered title; `extract_data` fails because
`get_filename` iterates the absent (`None`) title. -/
theorem extract_data_missing_title_counterexample :
    extract_data ["year = \x7b2020\x7d,\n"]
      = Except.error "TypeError: argument of type NoneType is not iterable" :=
  rfl


/-- C6, amended: for every entry with no line containing `"title = "`,
`extract_data` fails with the `TypeError` from iterating the absent title
— the permissive empty-title rendering the claim describes does not
happen. -/
theorem extract_data_missing_title_fails (lines : List String)
    (h : ∀ l ∈ lines, containsStr l "title = " = false) :
    extract_data lines
      = Except.error "TypeError: argument of type NoneType is not iterable" := by
  have htitle : get_title lines 0 = (none, lines.length) := by
    rw [get_title, show lines.drop 0 = lines from rfl, find?_none_of_all h]
  have hauth : get_authors lines lines.length = Except.ok ([], 0) := by
    rw [get_authors, List.drop_length]
    rfl
  rw [extract_data, htitle]
  simp only [hauth]
  rfl

/-- C6, amended, witness. -/
theorem extract_data_missing_title_fails_witness :
    extract_data ["author = \x7bDoe, Jane\x7d,\n"]
      = Except.error "TypeError: argument of type NoneType is not iterable" :=
  extract_data_missing_title_fails ["author = \x7bDoe, Jane\x7d,\n"] (by decide)

theorem get_notes_go_amended (ls : List String) :
    ∀ (flag : Bool) (acc : List String),
      get_notes_go ls flag acc
        = acc ++ amendedNotesGo
            (if flag then NoteState.capturing else NoteState.searching) ls := by
  induction ls with
  | nil => intro flag acc; cases flag <;> simp [get_notes_go, amendedNotesGo]
  | cons l ls ih =>
    intro flag acc
    rw [get_notes_go]
    by_cases ha : containsStr l "annote = " = true
    · rw [if_pos ha, ih true acc]
      cases flag <;> simp [amendedNotesGo, ha]
    · rw [if_neg ha]
      cases flag with
      | false =>
        rw [if_neg (by simp)]
        rw [ih false acc]
        simp [amendedNotesGo, ha]
      | true =>
        rw [if_pos rfl]
        by_cases hc : containsStr l "\x7d," = true
        · rw [if_pos hc]
          simp [amendedNotesGo, ha, hc]
        · rw [if_neg hc, ih true (acc ++ [pyTrim l])]
          simp [amendedNotesGo, ha, hc]

/-- C3, amended: `get_notes` is the claim's two-state machine amended so
that a line containing `"annote = "` is discarded in the capturing state
too (the opening-marker test runs first on every line); the closing line
is discarded and terminates, later lines are never scanned, the claimed
example extracts its two lines, and an entry without an annote line yields
the empty list. -/
theorem get_notes_amended :
    (∀ (lines : List String) (pos : Nat),
      get_notes lines pos = (amendedNotes (lines.drop pos), 0))
    ∧ get_notes ["annote = \x7b\n", "  line one\n", "  line two\n", "\x7d,\n",
        "ignored\n"] 0 = (["line one", "line two"], 0)
    ∧ get_notes ["no annotation here\n"] 0 = ([], 0) := by
  refine ⟨?_, rfl, rfl⟩
  intro lines pos
  rw [get_notes, amendedNotes, get_notes_go_amended (lines.drop pos) false []]
  rfl


theorem classifyTag_eq (acc : List String × List String) (t : String) :
    classifyTag acc t
      = (acc.1 ++ (claimStatusOf t).toList,
         acc.2 ++ if (claimStatusOf t).isNone && t != "Archived"
                  then [kebab t] else []) := by
  rw [classifyTag]
  by_cases h1 : t = "To Read - Low Priority"
  · subst h1
    rw [show claimStatusOf "To Read - Low Priority" = some "low-priority"
      from rfl]
    simp
  rw [if_neg (by simp [h1])]
  by_cases h2 : t = "To Read - Mid Priority"
  · subst h2
    rw [show claimStatusOf "To Read - Mid Priority" = some "mid-priority"
      from rfl]
    simp
  rw [if_neg (by simp [h2])]
  by_cases h3 : t = "To Read - High Priority"
  · subst h3
    rw [show claimStatusOf "To Read - High Priority" = some "high-priority"
      from rfl]
    simp
  rw [if_neg (by simp [h3])]
  by_cases h4 : t = "1st Pass"
  · subst h4
    rw [show claimStatusOf "1st Pass" = some "first-pass" from rfl]
    simp
  rw [if_neg (by simp [h4])]
  by_cases h5 : t = "2nd Pass"
  · subst h5
    rw [show claimStatusOf "2nd Pass" = some "second-pass" from rfl]
    simp
  rw [if_neg (by simp [h5])]
  by_cases h6 : t = "3rd Pass"
  · subst h6
    rw [show claimStatusOf "3rd Pass" = some "third-pass" from rfl]
    simp
  rw [if_neg (by simp [h6])]
  by_cases h7 : t = "Important"
  · subst h7
    rw [show claimStatusOf "Important" = some "important" from rfl]
    simp
  rw [if_neg (by simp [h7])]
  by_cases h8 : t = "Archived"
  · subst h8
    rw [show claimStatusOf "Archived" = none from rfl]
    simp
  rw [if_neg (by simp [h8])]
  have hnone : claimStatusOf t = none := by
    have hb1 := beq_eq_false_iff_ne.mpr h1
    have hb2 := beq_eq_false_iff_ne.mpr h2
    have hb3 := beq_eq_false_iff_ne.mpr h3
    have hb4 := beq_eq_false_iff_ne.mpr h4
    have hb5 := beq_eq_false_iff_ne.mpr h5
    have hb6 := beq_eq_false_iff_ne.mpr h6
    have hb7 := beq_eq_false_iff_ne.mpr h7
    simp only [claimStatusOf, claimStatusTable, List.lookup, hb1, hb2, hb3,
      hb4, hb5, hb6, hb7]
  simp [hnone, h8]

theorem foldl_classifyTag (tags : List String) :
    ∀ (st tt : List String),
      tags.foldl classifyTag (st, tt)
        = (st ++ tags.filterMap claimStatusOf,
           tt ++ (tags.filter fun t =>
             (claimStatusOf t).isNone && t != "Archived").map kebab) := by
  induction tags with
  | nil => intro st tt; simp
  | cons t tags ih =>
    intro st tt
    rw [List.foldl_cons, classifyTag_eq, ih]
    by_cases harch : (t != "Archived") = true
    · cases hst : claimStatusOf t with
      | none =>
        simp [List.filterMap_cons, List.filter_cons, hst, harch,
          List.append_assoc]
      | some s =>
        simp [List.filterMap_cons, List.filter_cons, hst, harch,
          List.append_assoc]
    · cases hst : claimStatusOf t with
      | none =>
        simp [List.filterMap_cons, List.filter_cons, hst, harch,
          List.append_assoc]
      | some s =>
        simp [List.filterMap_cons, List.filter_cons, hst, harch,
          List.append_assoc]

/-- C1: on every keywords field value, the source's if/elif chain computes
exactly the spec's classification — table hits become status tags in input
order, `"Archived"` is dropped, every other tag becomes a kebab-cased
topic tag in input order, and an empty status list defaults to exactly
`["not-read"]`; the claimed example evaluates as stated. -/
theorem get_tags_matches_spec :
    (∀ v : String, valueTags v = claimClassify (splitStr v ", "))
    ∧ get_tags
        ["keywords = \x7bTo Read - High Priority, Archived, Machine Learning\x7d,\n"]
        0
      = Except.ok ((["high-priority"], ["machine-learning"]), 0) := by
  refine ⟨?_, rfl⟩
  intro v
  rw [valueTags, foldl_classifyTag]
  simp only [claimClassify, List.nil_append]
  have hke : kebab = claimKebab := funext kebab_eq_claimKebab
  rw [hke]
  cases hempty : (splitStr v ", ").filterMap claimStatusOf with
  | nil => simp
  | cons a as => simp


theorem except_bind_ok {ε α β : Type} (a : α) (f : α → Except ε β) :
    (Except.ok a >>= f) = f a := rfl

theorem except_bind_error {ε α β : Type} (e : ε) (f : α → Except ε β) :
    ((Except.error e : Except ε α) >>= f) = Except.error e := rfl

theorem parseName_ok_of_two {n : String}
    (h : (splitStr (cleanName n) ", ").length = 2) :
    parseName n = Except.ok (renderName n) := by
  rw [parseName, renderName]
  cases hs : splitStr (cleanName n) ", " with
  | nil => rw [hs] at h; simp at h
  | cons a rest =>
    cases rest with
    | nil => rw [hs] at h; simp at h
    | cons b r2 =>
      cases r2 with
      | nil => rfl
      | cons c r3 => rw [hs] at h; simp at h

theorem parseName_error_of_not_two {n : String}
    (h : (splitStr (cleanName n) ", ").length ≠ 2) :
    parseName n
      = Except.error "ValueError: not exactly two comma-separated parts" := by
  rw [parseName]
  cases hs : splitStr (cleanName n) ", " with
  | nil => rfl
  | cons a rest =>
    cases rest with
    | nil => rfl
    | cons b r2 =>
      cases r2 with
      | nil => exact absurd (by simp [hs]) h
      | cons c r3 => rfl

theorem mapM_ok_of_all {f : String → Except String String}
    {g : String → String} :
    ∀ {xs : List String}, (∀ a ∈ xs, f a = Except.ok (g a)) →
      xs.mapM f = Except.ok (xs.map g) := by
  intro xs
  induction xs with
  | nil => intro _; rfl
  | cons a as ih =>
    intro h
    rw [List.mapM_cons, h a (by simp), ih fun b hb => h b (by simp [hb])]
    rfl

theorem mapM_ok_forall {f : String → Except String String} :
    ∀ {xs : List String} {ys : List String}, xs.mapM f = Except.ok ys →
      ∀ a ∈ xs, ∃ b, f a = Except.ok b := by
  intro xs
  induction xs with
  | nil => intro ys _ a ha; cases ha
  | cons x rest ih =>
    intro ys h a ha
    rw [List.mapM_cons] at h
    cases hfx : f x with
    | error e => rw [hfx] at h; cases h
    | ok b =>
      rw [hfx] at h
      cases hrest : rest.mapM f with
      | error e => rw [hrest] at h; cases h
      | ok bs =>
        rcases List.mem_cons.mp ha with rfl | hmem
        · exact ⟨b, hfx⟩
        · exact ih hrest a hmem

theorem get_authors_go_append (xs ys : List String) :
    ∀ acc, get_authors_go (xs ++ ys) acc
      = (do
          let a ← get_authors_go xs acc
          get_authors_go ys a) := by
  induction xs with
  | nil => intro acc; rfl
  | cons l ls ih =>
    intro acc
    by_cases hl : containsStr l "author = " = true
    · rw [List.cons_append,
        show get_authors_go (l :: (ls ++ ys)) acc
          = (do
              let v ← bracedValue l
              let a ← parseAuthors v
              get_authors_go (ls ++ ys) a) from by
            rw [get_authors_go, if_pos hl],
        show get_authors_go (l :: ls) acc
          = (do
              let v ← bracedValue l
              let a ← parseAuthors v
              get_authors_go ls a) from by
            rw [get_authors_go, if_pos hl]]
      cases hbv : bracedValue l with
      | error e => rfl
      | ok v =>
        simp only [except_bind_ok]
        cases hpa : parseAuthors v with
        | error e => rfl
        | ok a2 =>
          simp only [except_bind_ok]
          exact ih a2
    · rw [List.cons_append,
        show get_authors_go (l :: (ls ++ ys)) acc
          = get_authors_go (ls ++ ys) acc from by
            rw [get_authors_go, if_neg hl],
        show get_authors_go (l :: ls) acc = get_authors_go ls acc from by
          rw [get_authors_go, if_neg hl]]
      exact ih acc

theorem get_authors_go_no_author :
    ∀ {ls : List String}, (∀ l ∈ ls, containsStr l "author = " = false) →
      ∀ acc, get_authors_go ls acc = Except.ok acc := by
  intro ls
  induction ls with
  | nil => intro _ acc; rfl
  | cons l rest ih =>
    intro h acc
    rw [get_authors_go, if_neg (by simp [h l (by simp)])]
    exact ih (fun x hx => h x (by simp [hx])) acc

theorem get_authors_go_ok_parses :
    ∀ {ls : List String} {acc a : List String},
      get_authors_go ls acc = Except.ok a →
      ∀ l ∈ ls, containsStr l "author = " = true →
        ∀ w, bracedValue l = Except.ok w →
          ∃ x, parseAuthors w = Except.ok x := by
  intro ls
  induction ls with
  | nil => intro acc a _ l hl; cases hl
  | cons l0 rest ih =>
    intro acc a hgo l hl hauthor w hbv
    rw [get_authors_go] at hgo
    by_cases h0 : containsStr l0 "author = " = true
    · rw [if_pos h0] at hgo
      cases hbv0 : bracedValue l0 with
      | error e => rw [hbv0] at hgo; cases hgo
      | ok w0 =>
        simp only [hbv0, except_bind_ok] at hgo
        cases hpa0 : parseAuthors w0 with
        | error e => simp only [hpa0, except_bind_error] at hgo; cases hgo
        | ok a0 =>
          simp only [hpa0, except_bind_ok] at hgo
          rcases List.mem_cons.mp hl with rfl | hmem
          · rw [hbv] at hbv0
            cases hbv0
            exact ⟨a0, hpa0⟩
          · exact ih hgo l hmem hauthor w hbv
    · rw [if_neg h0] at hgo
      rcases List.mem_cons.mp hl with rfl | hmem
      · exact absurd hauthor h0
      · exact ih hgo l hmem hauthor w hbv


/-- C2, amended: for a well-formed author field value — every token
cleaned by the source's `[^\w\s ,]` strip (which keeps underscores along
with alphanumerics, whitespace and commas) splits on `", "` into exactly
two parts — `get_authors` returns one `"First Last"` string per person,
preserving person-count and order, and when several author lines occur the
last one determines the result. -/
theorem get_authors_amended (v : String)
    (hwf : ∀ n ∈ splitStr v " and ",
      (splitStr (cleanName n) ", ").length = 2) :
    parseAuthors v = Except.ok ((splitStr v " and ").map renderName)
    ∧ ((splitStr v " and ").map renderName).length
        = (splitStr v " and ").length
    ∧ ∀ (ls₁ ls₂ : List String) (l : String) (acc : List String),
        get_authors_go ls₁ [] = Except.ok acc →
        containsStr l "author = " = true →
        bracedValue l = Except.ok v →
        (∀ l2 ∈ ls₂, containsStr l2 "author = " = false) →
        get_authors (ls₁ ++ l :: ls₂) 0
          = Except.ok ((splitStr v " and ").map renderName, 0) := by
  have hpa : parseAuthors v
      = Except.ok ((splitStr v " and ").map renderName) :=
    mapM_ok_of_all fun n hn => parseName_ok_of_two (hwf n hn)
  refine ⟨hpa, by simp, ?_⟩
  intro ls₁ ls₂ l acc hgo hl hbv hno
  rw [get_authors, show (ls₁ ++ l :: ls₂).drop 0 = ls₁ ++ l :: ls₂ from rfl,
    get_authors_go_append, hgo, except_bind_ok,
    show get_authors_go (l :: ls₂) acc
      = (do
          let w ← bracedValue l
          let a ← parseAuthors w
          get_authors_go ls₂ a) from by rw [get_authors_go, if_pos hl]]
  simp only [hbv, except_bind_ok, hpa,
    get_authors_go_no_author hno ((splitStr v " and ").map renderName)]
  rfl

/-- C2, amended, witness. -/
theorem get_authors_amended_witness :
    parseAuthors "Doe, Jane and Smith, John"
      = Except.ok ["Jane Doe", "John Smith"]
    ∧ get_authors
        ["author = \x7bOld, A\x7d,\n",
         "author = \x7bDoe, Jane and Smith, John\x7d,\n",
         "junk\n"] 0
      = Except.ok (["Jane Doe", "John Smith"], 0) := by
  have h := get_authors_amended "Doe, Jane and Smith, John" (by decide)
  refine ⟨h.1.trans (by rfl), ?_⟩
  have h2 := h.2.2 ["author = \x7bOld, A\x7d,\n"] ["junk\n"]
    "author = \x7bDoe, Jane and Smith, John\x7d,\n" ["A Old"]
    (by rfl) (by decide) (by rfl) (by decide)
  exact h2.trans (by rfl)

/-- C7: an author field value containing a token that does not split into
exactly two comma-separated parts makes the author extraction fail with an
error that propagates: `get_authors` can never return successfully from an
entry whose author line carries such a value. -/
theorem malformed_author_surfaced (v : String)
    (h : ∃ n ∈ splitStr v " and ",
      (splitStr (cleanName n) ", ").length ≠ 2) :
    (∃ e, parseAuthors v = Except.error e)
    ∧ ∀ (lines : List String) (pos : Nat) (l : String),
        l ∈ lines.drop pos → containsStr l "author = " = true →
        bracedValue l = Except.ok v →
        ∀ r, get_authors lines pos ≠ Except.ok r := by
  obtain ⟨n, hn, hlen⟩ := h
  have herr : ∀ ys, parseAuthors v ≠ Except.ok ys := by
    intro ys hok
    obtain ⟨b, hb⟩ := mapM_ok_forall hok n hn
    rw [parseName_error_of_not_two hlen] at hb
    cases hb
  constructor
  · cases hpa : parseAuthors v with
    | error e => exact ⟨e, rfl⟩
    | ok ys => exact absurd hpa (herr ys)
  · intro lines pos l hmem hl hbv r hok
    rw [get_authors] at hok
    cases hgo : get_authors_go (lines.drop pos) [] with
    | error e => rw [hgo] at hok; cases hok
    | ok a =>
      obtain ⟨x, hx⟩ := get_authors_go_ok_parses hgo l hmem hl v hbv
      exact herr x hx

/-- C7, witness. -/
theorem malformed_author_surfaced_witness :
    (∃ e, parseAuthors "JohnDoe" = Except.error e)
    ∧ ∀ r, get_authors ["author = \x7bJohnDoe\x7d,\n"] 0 ≠ Except.ok r := by
  have h := malformed_author_surfaced "JohnDoe"
    ⟨"JohnDoe", by decide, by decide⟩
  exact ⟨h.1, fun r => h.2 ["author = \x7bJohnDoe\x7d,\n"] 0
    "author = \x7bJohnDoe\x7d,\n" (by decide) (by decide) (by rfl) r⟩


theorem cond_len_str (l : List String) (x : String) :
    (if l.length > 0 then x else "") = (if l.isEmpty then "" else x) := by
  cases l <;> simp

set_option maxRecDepth 4096 in
/-- C9: the rendered note is the deterministic serialization the claim
describes — H1 title and year line, link line or placeholder, tags with
one hashtag per line and all status tags before all topic tags, one
wiki-link bullet per author with spaces underscored in the link target,
the three fixed placeholder sections, the imported-notes section only
when non-empty, and the fixed footer; a sample record renders to exactly
these bytes. -/
theorem create_markdown_matches_spec :
    (∀ r : Record, create_markdown r = specRender r)
    ∧ create_markdown
        ⟨"A Study", ["Jane Doe"], "AStudy.md", ["important"],
         ["deep-learning"], ["note a"], some "http://x", some "2020"⟩
      = "# A Study (2020)\n\n[Link to Online Version](http://x)\n\n## Tags\n\n#important\n\n#deep-learning\n\n## Authors\n\n- [[PPL_Jane_Doe|Jane Doe]]\n\n## Summary\n\n(Summary here)\n\n## Key Takeaways\n\n- Key takeaways here\n\n## Relevance (or lack thereof)\n\n(Relevance here)\n\n## Imported Notes\n\n- note a\n\n---------------\n*Made with Hazel*\n" := by
  refine ⟨?_, rfl⟩
  intro r
  rw [create_markdown, specRender, h1Line, linkLine, tagsSection,
    authorsSection, placeholderSections, notesSection, footer, hashtagLines,
    hashtagLines,
    show authorBullet = specWikiLink from funext authorBullet_eq_specWikiLink,
    cond_len_str r.status_tags "\n", cond_len_str r.topic_tags "\n",
    cond_len_str r.imported_notes
      ("## Imported Notes\n\n"
        ++ String.join (r.imported_notes.map fun n => "- " ++ n ++ "\n")
        ++ "\n")]
  apply String.ext
  simp [data_append, List.append_assoc]

end Hazel


